import Mathlib

/-!
# go-hacker-news: the ingestion pipeline of `hacker_news.go`

A shallow embedding of `src/hacker_news.go` and theorems about it.

* Go `int` and `int64` values are Lean integers; every addition the program performs on an
  `int` is wrapped to 64 bits by `wrapInt` (the Go `int` of a 64-bit platform).
* `log.Fatal` ends the process: a function that can reach it returns `Except String _`, the
  error side being the fatal exit.
* The database, the HTTP transport and `json.Unmarshal` are external: they are the fields of a
  `World`, over an arbitrary state type.  `tableWorld` is the instance in which the table is
  a list of rows.
* Loops that the program can run for ever carry a fuel argument and report whether the loop
  left through its condition.
* What a run does to the outside world is read from the world: `logged w` is `w` with a log
  that its own three calls write, and the theorems on the order of operations are about
  that log.
* The `fmt.Print*` calls write to standard output only and are left out.
-/

namespace HackerNews

/-! ## Go integers and strings -/

/-- Smallest value of a Go `int` (64-bit platform). -/
def intMin : Int := -(2 ^ 63)

/-- Largest value of a Go `int` (64-bit platform). -/
def intMax : Int := 2 ^ 63 - 1

/-- Two's-complement wrap-around of a Go `int` result. -/
def wrapInt (x : Int) : Int := (x + 2 ^ 63) % 2 ^ 64 - 2 ^ 63

/-- Decimal rendering, `strconv.Itoa`. -/
def Itoa (i : Int) : String :=
  if i < 0 then "-" ++ Nat.repr i.natAbs else Nat.repr i.natAbs

/-- Replacement of the first occurrence of a non-empty `old` in a character list:
`strings.Replace(s, old, new, 1)`. -/
def replaceFirst : List Char → List Char → List Char → List Char
  | [], _, _ => []
  | c :: cs, old, new =>
    if old.isPrefixOf (c :: cs) then new ++ (c :: cs).drop old.length
    else c :: replaceFirst cs old new

/-- The function `strings.Join(elems, sep)`. -/
def Join (elems : List String) (sep : String) : String :=
  match elems with
  | [] => ""
  | [a] => a
  | a :: rest => rest.foldl (fun b s => b ++ sep ++ s) a

/-! ## Data model -/

/-- The constant `ItemUrlTemplate`. -/
def ItemUrlTemplate : String := "https://hacker-news.firebaseio.com/v0/item/[item_id].json"

/-- The struct `Item` (its field `Type` is `Type_` here, `Type` being reserved). -/
structure Item where
  Id : Int
  Time : Int
  Score : Int
  Parent : Int
  Descendants : Int
  Ranking : Int
  Type_ : String
  By : String
  Url : String
  Title : String
  Text : String
  Parts : String
  Kids : List Int
  Deleted : Bool
  Dead : Bool
deriving DecidableEq, Repr

/-- The value `new(Item)`: every field zero. -/
def Item.zero : Item :=
  ⟨0, 0, 0, 0, 0, 0, "", "", "", "", "", "", [], false, false⟩

/-- The type `sql.NullString`. -/
structure NullString where
  String : String
  Valid : Bool
deriving DecidableEq, Repr

/-- The type `sql.NullInt64`. -/
structure NullInt64 where
  Int64 : Int
  Valid : Bool
deriving DecidableEq, Repr

/-- Location of a `time.Time`. -/
inductive Location
  | Local
  | UTC
deriving DecidableEq, Repr

/-- The constant `unixToInternal` of package `time`: seconds from January 1 of year 1 to the
Unix epoch. -/
def unixToInternal : Int := 62135596800

/-- The constant `internalToAbsolute` of package `time`: seconds from the absolute zero year
-292277022399 to January 1 of year 1. -/
def internalToAbsolute : Int := 9223371966579724800

/-- A `time.Time` without monotonic clock reading: `wall` holds the nanoseconds, `ext` the
seconds since January 1 of year 1 as an `int64`, `loc` the location. -/
structure GoTime where
  wall : Int
  ext : Int
  loc : Location
deriving DecidableEq, Repr

/-- The function `unixTime(sec, nsec)` of package `time`: the offset is added in `int64`
and wraps. -/
def GoTime.unixTime (sec nsec : Int) : GoTime :=
  ⟨nsec, wrapInt (sec + unixToInternal), .Local⟩

/-- The function `time.Unix(sec, nsec)`: nanoseconds outside `[0, 1e9)` carry into the
seconds; the result is in the local location. -/
def GoTime.Unix (sec nsec : Int) : GoTime :=
  if nsec < 0 ∨ nsec ≥ 1000000000 then
    let n := Int.tdiv nsec 1000000000
    let sec1 := wrapInt (sec + n)
    let nsec1 := nsec - n * 1000000000
    if nsec1 < 0 then GoTime.unixTime (wrapInt (sec1 - 1)) (nsec1 + 1000000000)
    else GoTime.unixTime sec1 nsec1
  else GoTime.unixTime sec nsec

/-- The method `Time.UTC()`: same instant, location UTC. -/
def GoTime.UTC (t : GoTime) : GoTime := { t with loc := .UTC }

/-- The method `abs()` of a `Time` in UTC: seconds since the absolute zero year as a
`uint64`, from which the calendar methods and `Format` compute the date. -/
def GoTime.abs (t : GoTime) : Int := (t.ext + internalToAbsolute) % 2 ^ 64

/-- The method `Before`, for times without monotonic clock reading. -/
def GoTime.Before (t u : GoTime) : Bool :=
  decide (t.ext < u.ext) || (decide (t.ext = u.ext) && decide (t.wall < u.wall))

/-- The type `pq.NullTime`. -/
structure NullTime where
  Time : GoTime
  Valid : Bool
deriving DecidableEq, Repr

/-- An argument of `db.Query` / `db.Exec`. -/
inductive SqlValue
  | nullInt64 (v : NullInt64)
  | nullString (v : NullString)
  | nullTime (v : NullTime)
  | bool (b : Bool)
deriving DecidableEq, Repr

/-! ## Field coercion -/

/-- The function `toNullString`. -/
def toNullString (s : String) : NullString :=
  { String := s, Valid := s != "" }

/-- The function `toNullInt64`. -/
def toNullInt64 (i : Int) : NullInt64 :=
  { Int64 := i, Valid := i != 0 }

/-- The function `toNullTime`. -/
def toNullTime (i : Int) : NullTime :=
  let timestamp := (GoTime.Unix i 0).UTC
  { Time := timestamp, Valid := i != 0 }

/-- The function `toNullKids`. -/
def toNullKids (k : List Int) : NullString :=
  let kidsStrings := k.foldl (fun acc i => acc ++ [Itoa i]) ([] : List String)
  let kids := Join kidsStrings ","
  { String := kids, Valid := kids != "" }

/-! ## The outside world -/

/-- What `client.Do` gives back: a transport error, or a response with its status code and
what `ioutil.ReadAll` makes of its body. -/
inductive HttpResult
  | error (msg : String)
  | response (status : Int) (body : Except String String)

/-- What `db.Query` gives back: an error, or the rows, each with what `rows.Scan` makes
of it. -/
abbrev QueryResult := Except String (List (Except String Int))

/-- The external collaborators of the program, over a state `σ`, and the string flags. -/
structure World (σ : Type) where
  /-- flag `-db-table` -/
  dbTable : String
  /-- flag `-user-agent` -/
  userAgent : String
  /-- error of `sql.Open(*sqlDb, *dbConnOptions)`, if any -/
  sqlOpen : σ → Option String
  /-- result of `db.Query(stmt, itemId)` and of the scan of each row -/
  dbQuery : σ → String → Int → QueryResult × σ
  /-- error of `db.Exec(stmt, args...)`, if any -/
  dbExec : σ → String → List SqlValue → Option String × σ
  /-- result of `http.NewRequest("GET", url, nil)`, the `User-Agent` header and `client.Do` -/
  httpDo : σ → String → String → HttpResult × σ
  /-- result of `json.Unmarshal(body, &item)` with `item = new(Item)`: the pointer afterwards
  (`none` is nil) and the error, if any -/
  jsonUnmarshal : String → Option Item × Option String

/-! ## Fetching, checking, storing -/

/-- The function `get_and_load`: the returned `(*Item, error)` pair, or a fatal exit. -/
def get_and_load {σ : Type} (w : World σ) (url : String) (st : σ) :
    Except String (Option Item × Option String) × σ :=
  match w.httpDo st url w.userAgent with
  | (.error e, st1) => (.error e, st1)
  | (.response status body, st1) =>
    if status = 200 then
      match body with
      | .error e => (.error e, st1)
      | .ok bodyBytes =>
        let item := (w.jsonUnmarshal bodyBytes).1
        (.ok (item, none), st1)
    else (.ok (none, some "Bad response"), st1)

/-- The function `item_url`. -/
def item_url (itemId : Int) : String :=
  let itemIdString := Itoa itemId
  String.mk (replaceFirst ItemUrlTemplate.data "[item_id]".data itemIdString.data)

/-- The function `insert_table_name`: `fmt.Sprintf` of a template whose only verb is one
`%s`. -/
def insert_table_name (dbTable : String) (template : String) : String :=
  String.mk (replaceFirst template.data "%s".data dbTable.data)

/-- The statement text of `store_item`. -/
def insertTemplate : String :=
  "INSERT INTO %s (id, type, by, url, title, text, score, time, parent, deleted, dead, descendants, ranking, kids, parts) VALUES ($1, $2, $3, $4, $5, $6, $7, $8, $9, $10, $11, $12, $13, $14, $15)"

/-- The statement text of `new_item`. -/
def countTemplate : String := "SELECT COUNT(*) FROM %s WHERE id = $1"

/-- The arguments `store_item` passes to `db.Exec` after the statement. -/
def store_item_args (item : Item) : List SqlValue :=
  [ .nullInt64 (toNullInt64 item.Id),
    .nullString (toNullString item.Type_),
    .nullString (toNullString item.By),
    .nullString (toNullString item.Url),
    .nullString (toNullString item.Title),
    .nullString (toNullString item.Text),
    .nullInt64 (toNullInt64 item.Score),
    .nullTime (toNullTime item.Time),
    .nullInt64 (toNullInt64 item.Parent),
    .bool item.Deleted,
    .bool item.Dead,
    .nullInt64 (toNullInt64 item.Descendants),
    .nullInt64 (toNullInt64 item.Ranking),
    .nullString (toNullKids item.Kids),
    .nullString (toNullString item.Parts) ]

/-- A call of `db.Exec`: statement and arguments. -/
abbrev ExecCall := String × List SqlValue

/-- The function `store_item`: the `db.Exec` calls it made, and whether it ended in
`log.Fatal`. -/
def store_item {σ : Type} (w : World σ) (item : Option Item) (st : σ) :
    List ExecCall × Except String Unit × σ :=
  match item with
  | none => ([], .ok (), st)
  | some item =>
    let stmt := insert_table_name w.dbTable insertTemplate
    let args := store_item_args item
    match w.dbExec st stmt args with
    | (some e, st1) => ([(stmt, args)], .error e, st1)
    | (none, st1) => ([(stmt, args)], .ok (), st1)

/-- The row loop of `new_item`: `for rows.Next() { rows.Scan(&count) }`. -/
def new_item_scan : List (Except String Int) → Int → Except String Int
  | [], count => .ok count
  | .error e :: _, _ => .error e
  | .ok v :: rest, _ => new_item_scan rest v

/-- The function `new_item`. -/
def new_item {σ : Type} (w : World σ) (itemId : Int) (st : σ) : Except String Bool × σ :=
  match w.dbQuery st (insert_table_name w.dbTable countTemplate) itemId with
  | (.error e, st1) => (.error e, st1)
  | (.ok rows, st1) =>
    match new_item_scan rows 0 with
    | .error e => (.error e, st1)
    | .ok count => if count = 0 then (.ok true, st1) else (.ok false, st1)

/-! ## The worker -/

/-- What `work` does, in order: its three calls, and the `db.Exec` inside `store_item`. -/
inductive Event
  | new_item (itemId : Int) (result : Except String Bool)
  | get_and_load (url : String)
  | store_item (item : Option Item)
  | dbExec (stmt : String) (args : List SqlValue)

/-- How a run ended: the loop left through its condition, the process exited in
`log.Fatal`, or the fuel ran out first. -/
inductive Status
  | done
  | fatal (msg : String)
  | outOfFuel
deriving DecidableEq, Repr

/-- A run: the events in order, the final state, how it ended. -/
structure Run (σ : Type) where
  trace : List Event
  state : σ
  status : Status

/-- The body of the loop of `work` for one `itemId`. -/
def work_item {σ : Type} (w : World σ) (itemId : Int) (st : σ) :
    List Event × σ × Except String Unit :=
  match new_item w itemId st with
  | (.error e, st1) => ([.new_item itemId (.error e)], st1, .error e)
  | (.ok false, st1) => ([.new_item itemId (.ok false)], st1, .ok ())
  | (.ok true, st1) =>
    let url := item_url itemId
    match get_and_load w url st1 with
    | (.error e, st2) =>
      ([.new_item itemId (.ok true), .get_and_load url], st2, .error e)
    | (.ok (_, some err), st2) =>
      ([.new_item itemId (.ok true), .get_and_load url], st2, .error err)
    | (.ok (item, none), st2) =>
      match store_item w item st2 with
      | (execs, res, st3) =>
        ([.new_item itemId (.ok true), .get_and_load url, .store_item item]
          ++ execs.map (fun c => Event.dbExec c.1 c.2), st3, res)

/-- The loop of `work`: `for itemId := startId; itemId <= endId; itemId++`. -/
def work_loop {σ : Type} (w : World σ) : Nat → Int → Int → σ → Run σ
  | 0, _, _, st => ⟨[], st, .outOfFuel⟩
  | fuel + 1, itemId, endId, st =>
    if itemId ≤ endId then
      match work_item w itemId st with
      | (tr, st1, .error e) => ⟨tr, st1, .fatal e⟩
      | (tr, st1, .ok ()) =>
        let r := work_loop w fuel (wrapInt (itemId + 1)) endId st1
        ⟨tr ++ r.trace, r.state, r.status⟩
    else ⟨[], st, .done⟩

/-- The function `work`. -/
def work {σ : Type} (w : World σ) (fuel : Nat) (startId endId : Int) (st : σ) : Run σ :=
  match w.sqlOpen st with
  | some e => ⟨[], st, .fatal e⟩
  | none => work_loop w fuel startId endId st

/-! ## The partitioner -/

/-- The `go work(startId, endId)` statements of `work_in_batches`, in order, and whether
the loop left through its condition. -/
structure BatchRun where
  launched : List (Int × Int)
  finished : Bool
deriving DecidableEq, Repr

/-- The loop of `work_in_batches`:
`for startId := *minId; startId <= *maxId; startId += (*batchSize + 1)`. -/
def work_in_batches_loop (maxId batchSize : Int) : Nat → Int → BatchRun
  | 0, _ => ⟨[], false⟩
  | fuel + 1, startId =>
    if startId ≤ maxId then
      let endOfBatch := wrapInt (startId + batchSize)
      let endId := if endOfBatch > maxId then maxId else endOfBatch
      let rest := work_in_batches_loop maxId batchSize fuel
        (wrapInt (startId + wrapInt (batchSize + 1)))
      ⟨(startId, endId) :: rest.launched, rest.finished⟩
    else ⟨[], true⟩

/-- The function `work_in_batches`. -/
def work_in_batches (fuel : Nat) (minId maxId batchSize : Int) : BatchRun :=
  work_in_batches_loop maxId batchSize fuel minId

/-- The workers of a list of batches, one after another; a fatal exit stops everything. -/
def run_batches {σ : Type} (w : World σ) (fuel : Nat) : List (Int × Int) → σ → Run σ
  | [], st => ⟨[], st, .done⟩
  | b :: bs, st =>
    let r := work w fuel b.1 b.2 st
    match r.status with
    | .done =>
      let r2 := run_batches w fuel bs r.state
      ⟨r.trace ++ r2.trace, r2.state, r2.status⟩
    | _ => r

/-- The pipeline with its batches executed one after another, in launch order. -/
def run_sequential {σ : Type} (w : World σ) (fuelB fuelW : Nat) (minId maxId batchSize : Int)
    (st : σ) : Run σ :=
  let b := work_in_batches fuelB minId maxId batchSize
  let r := run_batches w fuelW b.launched st
  if b.finished then r
  else ⟨r.trace, r.state, if r.status = .done then .outOfFuel else r.status⟩

/-! ## A table as a list of rows -/

/-- A row: the fifteen values of an insert, `id` first. -/
abbrev Row := List SqlValue

/-- Whether `WHERE id = $1` selects the row: a NULL `id` equals nothing. -/
def Row.hasId (r : Row) (itemId : Int) : Bool :=
  match r with
  | .nullInt64 v :: _ => v.Valid && v.Int64 == itemId
  | _ => false

/-- The result of `SELECT COUNT(*) FROM <table> WHERE id = $1`. -/
def countRows (t : List Row) (itemId : Int) : Int :=
  ((t.filter (fun r => r.hasId itemId)).length : Int)

/-- The world in which the table is a list of rows: a query counts, an insert the table's
constraints `accepts` appends its row and any other fails, and the transport answers a
URL by `fetch`. -/
def tableWorld (dbTable userAgent : String) (accepts : List Row → Row → Bool)
    (fetch : String → HttpResult) (unmarshal : String → Option Item × Option String) :
    World (List Row) where
  dbTable := dbTable
  userAgent := userAgent
  sqlOpen := fun _ => none
  dbQuery := fun t _ itemId => (.ok [.ok (countRows t itemId)], t)
  dbExec := fun t _ args =>
    if accepts t args then (none, t ++ [args]) else (some "constraint violation", t)
  httpDo := fun t url _ => (fetch url, t)
  jsonUnmarshal := unmarshal

/-- A table without constraints. -/
def acceptAll : List Row → Row → Bool := fun _ _ => true

/-- A table whose `id` is a primary key: not NULL, and no two rows with the same `id`. -/
def primaryKey : List Row → Row → Bool := fun t r =>
  match r with
  | .nullInt64 v :: _ => v.Valid && countRows t v.Int64 == 0
  | _ => false

/-! ## Batches as sets of IDs -/

/-- An ID belongs to the inclusive range of a batch. -/
def inBatch (p : Int × Int) (id : Int) : Prop := p.1 ≤ id ∧ id ≤ p.2

/-- Two batches have no ID in common. -/
def disjointBatches (p q : Int × Int) : Prop := ∀ id, ¬ (inBatch p id ∧ inBatch q id)

/-! ## Worlds used as examples -/

/-- A transport that answers every URL with status 200 and the body `<html>`, which
`json.Unmarshal` rejects with a syntax error, leaving `new(Item)` untouched. -/
def htmlWorld : World (List Row) :=
  tableWorld "hacker_news_items" "research" acceptAll
    (fun _ => .response 200 (.ok "<html>"))
    (fun _ => (some Item.zero, some "invalid character looking for beginning of value"))

/-- A transport that answers every URL with status 404 and the body `null`. -/
def notFoundWorld : World (List Row) :=
  tableWorld "hacker_news_items" "research" acceptAll
    (fun _ => .response 404 (.ok "null"))
    (fun _ => (none, none))

/-- A transport that answers every URL with status 200 and the body `null`, which
`json.Unmarshal` turns into a nil pointer without an error. -/
def nullWorld : World (List Row) :=
  tableWorld "hacker_news_items" "research" acceptAll
    (fun _ => .response 200 (.ok "null"))
    (fun _ => (none, none))

/-- A table holding one row, with `id` 1. -/
def oneRowTable : List Row := [store_item_args { Item.zero with Id := 1 }]

/-! ## The order of the operations of a worker, in the words of the specification -/

/-- The IDs `startId, startId + 1, ...`, `n` of them, in increasing order. -/
def idRange (startId : Int) : Nat → List Int
  | 0 => []
  | n + 1 => startId :: idRange (startId + 1) n

/-! ## Running the pipeline twice -/

/-- The transport serves an ID its own item: a 200 response for the URL of `id` that
decodes to a non-nil `Item` carries `Id = id`, and `id` is not zero. -/
def servesOwnId (fetch : String → HttpResult) (unmarshal : String → Option Item × Option String)
    (id : Int) : Prop :=
  ∀ body item, fetch (item_url id) = .response 200 (.ok body) →
    (unmarshal body).1 = some item → item.Id = id ∧ id ≠ 0

/-- The trace holds no insert: no `db.Exec`, and no `store_item` of a non-nil item. -/
def noInsert (tr : List Event) : Prop :=
  ∀ ev ∈ tr, (∀ stmt args, ev ≠ Event.dbExec stmt args) ∧ ∀ it, ev ≠ Event.store_item (some it)

/-- Every ID stored in `t1` is stored in `t2`. -/
def covers (t2 t1 : List Row) : Prop :=
  ∀ id, countRows t1 id ≠ 0 → countRows t2 id ≠ 0

/-- A transport that serves items 1 and 2 at their own URLs and answers 404 elsewhere. -/
def twoItemsWorld : World (List Row) :=
  tableWorld "hacker_news_items" "research" primaryKey
    (fun url =>
      if url = item_url 1 then .response 200 (.ok "one")
      else if url = item_url 2 then .response 200 (.ok "two")
      else .response 404 (.ok "null"))
    (fun body =>
      if body = "one" then (some { Item.zero with Id := 1, Type_ := "story", Score := 5 }, none)
      else if body = "two" then (some { Item.zero with Id := 2, Type_ := "comment" }, none)
      else (none, none))

/-- A transport that answers every URL with the item whose `Id` is 2, over a table with
the constraints `accepts`. -/
def strayWorld (accepts : List Row → Row → Bool) : World (List Row) :=
  tableWorld "hacker_news_items" "research" accepts
    (fun _ => .response 200 (.ok "item"))
    (fun _ => (some { Item.zero with Id := 2 }, none))

/-- A transport that answers every URL with status 200 and the empty JSON object, which
`json.Unmarshal` accepts and which leaves every field of `new(Item)` zero. -/
def emptyObjectWorld : World (List Row) :=
  tableWorld "hacker_news_items" "research" acceptAll
    (fun _ => .response 200 (.ok "\x7b\x7d"))
    (fun _ => (some Item.zero, none))

/-! ## The calls a run makes on the outside world -/

/-- A call on the outside world, with its arguments and what the world answered. -/
inductive Op
  | dbQuery (stmt : String) (itemId : Int) (result : QueryResult)
  | httpDo (url : String) (userAgent : String) (result : HttpResult)
  | dbExec (stmt : String) (args : List SqlValue) (err : Option String)

/-- The world `w` keeping a log: every call of `db.Query`, `client.Do` and `db.Exec` is
passed to `w` unchanged and appended to the log, with the answer of `w`. Nothing but these
three calls writes to the log. -/
def logged {σ : Type} (w : World σ) : World (σ × List Op) where
  dbTable := w.dbTable
  userAgent := w.userAgent
  sqlOpen := fun s => w.sqlOpen s.1
  dbQuery := fun s stmt itemId =>
    ((w.dbQuery s.1 stmt itemId).1,
      ((w.dbQuery s.1 stmt itemId).2, s.2 ++ [.dbQuery stmt itemId (w.dbQuery s.1 stmt itemId).1]))
  dbExec := fun s stmt args =>
    ((w.dbExec s.1 stmt args).1,
      ((w.dbExec s.1 stmt args).2, s.2 ++ [.dbExec stmt args (w.dbExec s.1 stmt args).1]))
  httpDo := fun s url userAgent =>
    ((w.httpDo s.1 url userAgent).1,
      ((w.httpDo s.1 url userAgent).2,
        s.2 ++ [.httpDo url userAgent (w.httpDo s.1 url userAgent).1]))
  jsonUnmarshal := w.jsonUnmarshal

/-- The calls one turn of the loop of `work` makes, read off the answers of `w`. -/
def itemOps {σ : Type} (w : World σ) (id : Int) (st : σ) : List Op :=
  .dbQuery (insert_table_name w.dbTable countTemplate) id
      (w.dbQuery st (insert_table_name w.dbTable countTemplate) id).1 ::
    match new_item w id st with
    | (.ok true, st1) =>
      .httpDo (item_url id) w.userAgent (w.httpDo st1 (item_url id) w.userAgent).1 ::
        match get_and_load w (item_url id) st1 with
        | (.ok (some it, none), st2) =>
          [.dbExec (insert_table_name w.dbTable insertTemplate) (store_item_args it)
            (w.dbExec st2 (insert_table_name w.dbTable insertTemplate) (store_item_args it)).1]
        | _ => []
    | _ => []

/-- The calls the loop of `work` makes, read off the answers of `w`. -/
def loopOps {σ : Type} (w : World σ) : Nat → Int → Int → σ → List Op
  | 0, _, _, _ => []
  | fuel + 1, itemId, endId, st =>
    if itemId ≤ endId then
      match work_item w itemId st with
      | (_, _, .error _) => itemOps w itemId st
      | (_, st1, .ok ()) => itemOps w itemId st ++ loopOps w fuel (wrapInt (itemId + 1)) endId st1
    else []

/-- The insert of an item: none for a nil item, one accepted `db.Exec` otherwise. -/
def storeOps {σ : Type} (w : World σ) (item : Option Item) : List Op :=
  match item with
  | none => []
  | some it =>
    [.dbExec (insert_table_name w.dbTable insertTemplate) (store_item_args it) none]

/-- The calls of one ID when no step fails: its existence query, answered with a count;
followed, only when that count is zero, by the fetch of its URL, answered with status 200
and a body, and then by the store of the item that `json.Unmarshal` makes of that body. -/
def isBlockOf {σ : Type} (w : World σ) (id : Int) (blk : List Op) : Prop :=
  (∃ rows count, new_item_scan rows 0 = .ok count ∧ count ≠ 0 ∧
    blk = [.dbQuery (insert_table_name w.dbTable countTemplate) id (.ok rows)]) ∨
  (∃ rows body, new_item_scan rows 0 = .ok 0 ∧
    blk = [.dbQuery (insert_table_name w.dbTable countTemplate) id (.ok rows),
        .httpDo (item_url id) w.userAgent (.response 200 (.ok body))]
      ++ storeOps w (w.jsonUnmarshal body).1)

/-- The IDs whose existence is queried in a log, in order. -/
def checkedIds (ops : List Op) : List Int :=
  ops.filterMap (fun op => match op with
    | .dbQuery _ id _ => some id
    | _ => none)

/-! ## Wrap-around -/

theorem wrapInt_of_range (x : Int) (h1 : intMin ≤ x) (h2 : x ≤ intMax) : wrapInt x = x := by
  unfold intMin at h1
  unfold intMax at h2
  unfold wrapInt
  rw [Int.emod_eq_of_lt (by omega) (by omega)]
  omega

theorem wrapInt_add_wrapInt (x y : Int) : wrapInt (x + wrapInt y) = wrapInt (x + y) := by
  unfold wrapInt
  have h : (x + ((y + 2 ^ 63) % 2 ^ 64 - 2 ^ 63) + 2 ^ 63) % 2 ^ 64 = (x + y + 2 ^ 63) % 2 ^ 64 := by
    omega
  rw [h]

/-! ## The partitioner -/

theorem work_in_batches_loop_spec (maxId batchSize : Int) (hb : 0 < batchSize)
    (hov : maxId + batchSize + 1 ≤ intMax) :
    ∀ (fuel : Nat) (s : Int), intMin ≤ s → (maxId + 1 - s).toNat < fuel →
      (work_in_batches_loop maxId batchSize fuel s).finished = true ∧
      (∀ p ∈ (work_in_batches_loop maxId batchSize fuel s).launched, s ≤ p.1) ∧
      List.Pairwise disjointBatches (work_in_batches_loop maxId batchSize fuel s).launched ∧
      ∀ id, (∃ p ∈ (work_in_batches_loop maxId batchSize fuel s).launched, inBatch p id) ↔
        (s ≤ id ∧ id ≤ maxId) := by
  intro fuel
  induction fuel with
  | zero => intro s _ h; omega
  | succ n ih =>
    intro s hs hfuel
    unfold work_in_batches_loop
    by_cases hle : s ≤ maxId
    · have hnext : wrapInt (s + wrapInt (batchSize + 1)) = s + batchSize + 1 := by
        rw [wrapInt_add_wrapInt, ← add_assoc]
        exact wrapInt_of_range _ (by omega) (by omega)
      have hend : wrapInt (s + batchSize) = s + batchSize :=
        wrapInt_of_range _ (by omega) (by omega)
      obtain ⟨ih1, ih2, ih3, ih4⟩ := ih (s + batchSize + 1) (by omega) (by omega)
      simp only [hle, if_true, hnext, hend]
      refine ⟨ih1, ?_, ?_, ?_⟩
      · intro p hp
        rcases List.mem_cons.1 hp with rfl | hp
        · exact le_refl _
        · have := ih2 p hp
          omega
      · refine List.Pairwise.cons ?_ ih3
        intro q hq id ⟨h1, h2⟩
        have hq1 := ih2 q hq
        unfold inBatch at h1 h2
        simp only at h1
        split at h1 <;> omega
      · intro id
        constructor
        · rintro ⟨p, hp, hin⟩
          rcases List.mem_cons.1 hp with rfl | hp
          · unfold inBatch at hin
            simp only at hin
            split at hin <;> omega
          · have := (ih4 id).1 ⟨p, hp, hin⟩
            omega
        · rintro ⟨h1, h2⟩
          by_cases hid : id ≤ s + batchSize
          · refine ⟨_, List.mem_cons_self _ _, ?_⟩
            unfold inBatch
            simp only
            split <;> omega
          · obtain ⟨p, hp, hin⟩ := (ih4 id).2 ⟨by omega, h2⟩
            exact ⟨p, List.mem_cons_of_mem _ hp, hin⟩
    · simp only [hle, if_false]
      refine ⟨trivial, ?_, List.Pairwise.nil, ?_⟩
      · intro p hp; cases hp
      · intro id
        constructor
        · rintro ⟨p, hp, _⟩; cases hp
        · rintro ⟨h1, h2⟩; omega

/-- C1, with the bound that keeps the additions of the loop inside a Go `int`: for
`minId ≤ maxId`, a positive `batchSize` and `maxId + batchSize + 1 ≤ intMax`, the loop of
`work_in_batches` ends, the ranges `[startId, endId]` it hands to `work` are pairwise
disjoint, and an ID belongs to one of them exactly when it lies in `minId..maxId`. -/
theorem work_in_batches_partition (fuel : Nat) (minId maxId batchSize : Int)
    (hmin : intMin ≤ minId) (_hle : minId ≤ maxId) (hb : 0 < batchSize)
    (hov : maxId + batchSize + 1 ≤ intMax) (hfuel : (maxId + 1 - minId).toNat < fuel) :
    (work_in_batches fuel minId maxId batchSize).finished = true ∧
    List.Pairwise disjointBatches (work_in_batches fuel minId maxId batchSize).launched ∧
    ∀ id, (∃ p ∈ (work_in_batches fuel minId maxId batchSize).launched, inBatch p id) ↔
      (minId ≤ id ∧ id ≤ maxId) := by
  obtain ⟨h1, _, h3, h4⟩ :=
    work_in_batches_loop_spec maxId batchSize hb hov fuel minId hmin hfuel
  exact ⟨h1, h3, h4⟩

/-- Witness of C1: `minId = 1`, `maxId = 3`, `batchSize = 10` gives the single batch
`[1, 3]`, which is disjoint from nothing else and covers exactly `1..3`. -/
theorem work_in_batches_partition_witness :
    (work_in_batches 4 1 3 10).launched = [(1, 3)] ∧
    ((work_in_batches 4 1 3 10).finished = true ∧
    List.Pairwise disjointBatches (work_in_batches 4 1 3 10).launched ∧
    ∀ id, (∃ p ∈ (work_in_batches 4 1 3 10).launched, inBatch p id) ↔
      ((1 : Int) ≤ id ∧ id ≤ 3)) :=
  ⟨by decide, work_in_batches_partition 4 1 3 10 (by decide) (by decide) (by decide)
    (by decide) (by decide)⟩

/-- Counterexample to C1 as stated: with `minId = maxId = intMax` and `batchSize = 1`
(`minId ≤ maxId`, `batchSize` positive) the first two ranges handed to `work` are
`[intMax, intMin]`, which is empty, and `[intMin + 1, intMin + 2]`, whose IDs lie outside
`minId..maxId`. -/
theorem work_in_batches_overflow :
    intMax ≤ intMax ∧ (0 : Int) < 1 ∧
    (work_in_batches 2 intMax intMax 1).launched
      = [(intMax, intMin), (intMin + 1, intMin + 2)] ∧
    inBatch (intMin + 1, intMin + 2) (intMin + 1) ∧
    ¬ (intMax ≤ intMin + 1 ∧ intMin + 1 ≤ intMax) := by
  refine ⟨le_refl _, by decide, by decide, ?_, ?_⟩
  · unfold inBatch; decide
  · decide

/-- C2 at `minId = 1`, `maxId = 10`, `batchSize = 2`: the ranges handed to `work` are
`[1,3]`, `[4,6]`, `[7,9]`, `[10,10]`; the first holds the three IDs 1, 2, 3, not two. -/
theorem work_in_batches_batch_length :
    work_in_batches 11 1 10 2 = ⟨[(1, 3), (4, 6), (7, 9), (10, 10)], true⟩ ∧
    (work_in_batches 11 1 10 2).launched.map (fun p => p.2 - p.1 + 1) = [3, 3, 3, 1] := by
  constructor
  · decide
  · decide

/-! ## Field coercion -/

theorem toDigitsCore_length_le (b : Nat) :
    ∀ (f n : Nat) (ds : List Char), ds.length ≤ (Nat.toDigitsCore b f n ds).length := by
  intro f
  induction f with
  | zero => intro n ds; simp [Nat.toDigitsCore]
  | succ f ih =>
    intro n ds
    simp only [Nat.toDigitsCore]
    split
    · simp
    · exact le_trans (by simp) (ih _ _)

theorem repr_length_pos (n : Nat) : 0 < (Nat.repr n).length := by
  simp only [Nat.repr, Nat.toDigits, Nat.toDigitsCore, List.asString, String.length]
  split
  · simp
  · exact lt_of_lt_of_le (by simp) (toDigitsCore_length_le 10 _ _ _)

theorem Itoa_length_pos (i : Int) : 0 < (Itoa i).length := by
  unfold Itoa
  split
  · rw [String.length_append]
    have := repr_length_pos i.natAbs
    omega
  · exact repr_length_pos _

theorem kidsStrings_eq_map (k : List Int) (acc : List String) :
    k.foldl (fun acc i => acc ++ [Itoa i]) acc = acc ++ k.map Itoa := by
  induction k generalizing acc with
  | nil => simp
  | cons a k ih => simp [ih]

theorem intercalate_go_eq_foldl (sep : String) (l : List String) (acc : String) :
    String.intercalate.go acc sep l = l.foldl (fun b s => b ++ sep ++ s) acc := by
  induction l generalizing acc with
  | nil => simp [String.intercalate.go]
  | cons a l ih => simp [String.intercalate.go, ih]

theorem Join_eq_intercalate (elems : List String) (sep : String) :
    Join elems sep = sep.intercalate elems := by
  match elems with
  | [] => rfl
  | [a] => simp [Join, String.intercalate, String.intercalate.go]
  | a :: b :: rest => simp [Join, String.intercalate, intercalate_go_eq_foldl]

theorem foldl_sep_length_le (sep : String) (l : List String) (acc : String) :
    acc.length ≤ (l.foldl (fun b s => b ++ sep ++ s) acc).length := by
  induction l generalizing acc with
  | nil => simp
  | cons a l ih =>
    refine le_trans ?_ (ih _)
    simp [String.length_append]
    omega

theorem Join_length_pos (a : String) (rest : List String) (sep : String)
    (ha : 0 < a.length) : 0 < (Join (a :: rest) sep).length := by
  cases rest with
  | nil => simpa [Join] using ha
  | cons b rest =>
    simp only [Join]
    exact lt_of_lt_of_le ha (foldl_sep_length_le sep _ a)

/-- C6: for every sequence `k` of child IDs, `toNullKids k` carries the decimal renderings
of the elements of `k`, in order, joined by single commas, and is Valid exactly when `k`
is non-empty; `[4,5,6]` gives the present value `"4,5,6"` and `[]` gives the absent
value. -/
theorem toNullKids_spec (k : List Int) :
    toNullKids k = { String := ",".intercalate (k.map Itoa), Valid := !k.isEmpty } ∧
    toNullKids [4, 5, 6] = { String := "4,5,6", Valid := true } ∧
    toNullKids [] = { String := "", Valid := false } := by
  refine ⟨?_, by decide, by decide⟩
  unfold toNullKids
  simp only [kidsStrings_eq_map, List.nil_append, NullString.mk.injEq]
  refine ⟨Join_eq_intercalate _ _, ?_⟩
  cases k with
  | nil => simp [Join]
  | cons a k =>
    have h := Join_length_pos (Itoa a) (k.map Itoa) "," (Itoa_length_pos a)
    have hne : Join (Itoa a :: k.map Itoa) "," ≠ "" := by
      intro he
      rw [he] at h
      simp at h
    simpa using hne

/-- C7, with the bounds inside which the `int64` and `uint64` seconds of a `time.Time` do not
wrap: `toNullInt64 v` and `toNullTime v` are Valid exactly when `v ≠ 0`, and `toNullString s`
exactly when `s` is non-empty; `toNullInt64` and `toNullString` carry their input; for
`-9223372028715321600 ≤ v ≤ 9223371974719179007` the value of `toNullTime v` is the UTC
instant `v` seconds (and no nanoseconds) after the Unix epoch, its seconds since year 1 and
since the absolute zero year being those of `v` seconds after the epoch; `0` gives an absent
timestamp. -/
theorem toNull_zero_means_absent (v : Int) (s : String) :
    ((toNullInt64 v).Valid = true ↔ v ≠ 0) ∧ (toNullInt64 v).Int64 = v ∧
    ((toNullTime v).Valid = true ↔ v ≠ 0) ∧
    (-9223372028715321600 ≤ v → v ≤ 9223371974719179007 →
      (toNullTime v).Time = { wall := 0, ext := v + unixToInternal, loc := .UTC } ∧
      (toNullTime v).Time.abs = v + unixToInternal + internalToAbsolute) ∧
    ((toNullString s).Valid = true ↔ s ≠ "") ∧ (toNullString s).String = s ∧
    (toNullTime 0).Valid = false := by
  refine ⟨?_, rfl, ?_, ?_, ?_, rfl, ?_⟩
  · simp [toNullInt64]
  · simp [toNullTime]
  · intro hlo hhi
    have hw : wrapInt (v + unixToInternal) = v + unixToInternal :=
      wrapInt_of_range _ (by unfold intMin unixToInternal; omega)
        (by unfold intMax unixToInternal; omega)
    constructor
    · simp [toNullTime, GoTime.Unix, GoTime.UTC, GoTime.unixTime, hw]
    · simp only [toNullTime, GoTime.Unix, GoTime.UTC, GoTime.unixTime, GoTime.abs]
      simp only [show ¬ ((0 : Int) < 0 ∨ (0 : Int) ≥ 1000000000) by omega, if_false, hw]
      unfold unixToInternal internalToAbsolute
      omega
  · simp [toNullString]
  · simp [toNullTime]

/-- Witness of C7: `v = 1400000000`, a timestamp of May 2014, lies inside the bounds and
`toNullTime` carries the instant `v` seconds after the epoch. -/
theorem toNull_zero_means_absent_witness :
    (-9223372028715321600 : Int) ≤ 1400000000 ∧ (1400000000 : Int) ≤ 9223371974719179007 ∧
    (toNullTime 1400000000).Time
      = { wall := 0, ext := 1400000000 + unixToInternal, loc := .UTC } ∧
    (toNullTime 1400000000).Time.abs = 1400000000 + unixToInternal + internalToAbsolute :=
  ⟨by decide, by decide,
    (toNull_zero_means_absent 1400000000 "").2.2.2.1 (by decide) (by decide)⟩

/-- Counterexample to C7 as stated: for the 64-bit integers `v = intMax` and `v = intMin`,
`toNullTime v` is Valid but is not the instant `v` seconds after the Unix epoch. At `intMax`
the seconds since year 1 wrap to a negative number, so the time is before the epoch itself,
the value of `toNullTime 0`; at `intMin` the seconds since the absolute zero year wrap, so the
calendar date lies 2^64 seconds after that of `v`. -/
theorem toNullTime_wraps :
    (toNullTime intMax).Valid = true ∧
    (toNullTime intMax).Time.ext = -9223371974719179009 ∧
    (toNullTime intMax).Time.ext ≠ intMax + unixToInternal ∧
    (toNullTime intMax).Time.Before (toNullTime 0).Time = true ∧
    (toNullTime intMin).Valid = true ∧
    (toNullTime intMin).Time.abs = intMin + unixToInternal + internalToAbsolute + 2 ^ 64 ∧
    (toNullTime intMin).Time.abs ≠ intMin + unixToInternal + internalToAbsolute := by
  refine ⟨by decide, by decide, by decide, by decide, by decide, by decide, by decide⟩

/-! ## Fetching and storing -/

/-- C8 at status 200 with the body `<html>`: `json.Unmarshal` reports an error, and
`get_and_load` returns the zero `Item` with a nil error. -/
theorem get_and_load_drops_decode_error :
    (htmlWorld.jsonUnmarshal "<html>").2 ≠ none ∧
    get_and_load htmlWorld (item_url 1) [] = (.ok (some Item.zero, none), []) := by
  constructor
  · simp [htmlWorld, tableWorld]
  · rfl

/-- C9: when the response has a status other than 200, whatever its body, `get_and_load`
returns no `Item` and the error `Bad response`; when the status is 200 it returns no error at
all (it returns an `Item` pointer with a nil error, or the process has exited on a failed
read of the body). -/
theorem get_and_load_status {σ : Type} (w : World σ) (url : String) (st st1 : σ)
    (status : Int) (body : Except String String)
    (h : w.httpDo st url w.userAgent = (.response status body, st1)) :
    (status ≠ 200 → get_and_load w url st = (.ok (none, some "Bad response"), st1)) ∧
    (status = 200 → ∀ item err, (get_and_load w url st).1 = .ok (item, err) → err = none) := by
  unfold get_and_load
  rw [h]
  constructor
  · intro hs
    simp [hs]
  · intro hs item err
    simp only [hs, if_true]
    cases body with
    | error e => intro he; cases he
    | ok b =>
      intro he
      simp only [Except.ok.injEq, Prod.mk.injEq] at he
      exact he.2.symm

/-- Witness of C9: a 404 response with body `null` gives `Bad response` and no `Item`. -/
theorem get_and_load_status_witness :
    ((404 : Int) ≠ 200 →
      get_and_load notFoundWorld (item_url 1) [] = (.ok (none, some "Bad response"), [])) ∧
    ((404 : Int) = 200 → ∀ item err,
      (get_and_load notFoundWorld (item_url 1) []).1 = .ok (item, err) → err = none) :=
  get_and_load_status notFoundWorld (item_url 1) [] [] 404 (.ok "null") rfl

theorem insert_stmt_text (t : String) :
    insert_table_name t insertTemplate =
      "INSERT INTO " ++ t ++ " (id, type, by, url, title, text, score, time, parent, deleted, dead, descendants, ranking, kids, parts) VALUES ($1, $2, $3, $4, $5, $6, $7, $8, $9, $10, $11, $12, $13, $14, $15)" := by
  apply String.ext
  simp only [insert_table_name, insertTemplate, String.data_append]
  rfl

/-! ## The worker -/

theorem work_loop_succ {σ : Type} (w : World σ) (fuel : Nat) (itemId endId : Int) (st : σ) :
    work_loop w (fuel + 1) itemId endId st =
      if itemId ≤ endId then
        match work_item w itemId st with
        | (tr, st1, .error e) => ⟨tr, st1, .fatal e⟩
        | (tr, st1, .ok ()) =>
          ⟨tr ++ (work_loop w fuel (wrapInt (itemId + 1)) endId st1).trace,
            (work_loop w fuel (wrapInt (itemId + 1)) endId st1).state,
            (work_loop w fuel (wrapInt (itemId + 1)) endId st1).status⟩
      else ⟨[], st, .done⟩ := rfl

/-! ## Running the pipeline twice -/

theorem countRows_append (t extra : List Row) (id : Int) :
    countRows (t ++ extra) id = countRows t id + countRows extra id := by
  simp [countRows]

theorem countRows_nonneg (t : List Row) (id : Int) : 0 ≤ countRows t id := by
  simp [countRows]

theorem covers_append (t extra : List Row) : covers (t ++ extra) t := by
  intro id h
  rw [countRows_append]
  have := countRows_nonneg t id
  have := countRows_nonneg extra id
  omega

theorem covers_trans {a b c : List Row} (h1 : covers a b) (h2 : covers b c) : covers a c :=
  fun id h => h1 id (h2 id h)

theorem countRows_stored (t : List Row) (it : Item) (h : it.Id ≠ 0) :
    countRows (t ++ [store_item_args it]) it.Id ≠ 0 := by
  rw [countRows_append]
  have := countRows_nonneg t it.Id
  have h1 : countRows [store_item_args it] it.Id = 1 := by
    simp [countRows, store_item_args, Row.hasId, toNullInt64, h]
  omega

theorem new_item_table (dbTable userAgent : String) (accepts : List Row → Row → Bool)
    (fetch : String → HttpResult) (unmarshal : String → Option Item × Option String)
    (id : Int) (t : List Row) :
    new_item (tableWorld dbTable userAgent accepts fetch unmarshal) id t
      = (.ok (decide (countRows t id = 0)), t) := by
  simp only [new_item, tableWorld, new_item_scan]
  split <;> simp_all

theorem work_item_table_present (dbTable userAgent : String) (accepts : List Row → Row → Bool)
    (fetch : String → HttpResult) (unmarshal : String → Option Item × Option String)
    (id : Int) (t : List Row) (h : countRows t id ≠ 0) :
    work_item (tableWorld dbTable userAgent accepts fetch unmarshal) id t
      = ([.new_item id (.ok false)], t, .ok ()) := by
  unfold work_item
  rw [new_item_table]
  simp [h]

theorem work_item_table_absent (dbTable userAgent : String) (accepts : List Row → Row → Bool)
    (fetch : String → HttpResult) (unmarshal : String → Option Item × Option String)
    (id : Int) (t : List Row) (h : countRows t id = 0)
    (hok : (work_item (tableWorld dbTable userAgent accepts fetch unmarshal) id t).2.2 = .ok ()) :
    ∃ body, fetch (item_url id) = .response 200 (.ok body) ∧
      (((unmarshal body).1 = none ∧
        work_item (tableWorld dbTable userAgent accepts fetch unmarshal) id t =
          ([.new_item id (.ok true), .get_and_load (item_url id), .store_item none], t, .ok ())) ∨
       (∃ it, (unmarshal body).1 = some it ∧
        (work_item (tableWorld dbTable userAgent accepts fetch unmarshal) id t).2.1
          = t ++ [store_item_args it])) := by
  unfold work_item at hok ⊢
  rw [new_item_table] at hok ⊢
  simp only [h, decide_True] at hok ⊢
  simp only [get_and_load, tableWorld] at hok ⊢
  cases hf : fetch (item_url id) with
  | error e => simp [hf] at hok
  | response status body =>
    simp only [hf] at hok ⊢
    by_cases hs : status = 200
    · subst hs
      simp only [if_true] at hok ⊢
      cases body with
      | error e => simp at hok
      | ok b =>
        refine ⟨b, rfl, ?_⟩
        simp only at hok ⊢
        cases hu : (unmarshal b).1 with
        | none =>
          left
          simp [hu, store_item]
        | some it =>
          right
          refine ⟨it, rfl, ?_⟩
          simp only [hu, store_item] at hok ⊢
          by_cases ha : accepts t (store_item_args it) = true
          · simp [ha]
          · simp [ha] at hok
    · simp [hs] at hok

theorem work_item_table_state (dbTable userAgent : String) (accepts : List Row → Row → Bool)
    (fetch : String → HttpResult) (unmarshal : String → Option Item × Option String)
    (id : Int) (t : List Row) :
    ∃ extra, (work_item (tableWorld dbTable userAgent accepts fetch unmarshal) id t).2.1
      = t ++ extra := by
  unfold work_item
  rw [new_item_table]
  by_cases h : countRows t id = 0
  · simp only [h, decide_True]
    simp only [get_and_load, tableWorld]
    cases fetch (item_url id) with
    | error e => exact ⟨[], by simp⟩
    | response status body =>
      by_cases hs : status = 200
      · subst hs
        cases body with
        | error e => exact ⟨[], by simp⟩
        | ok b =>
          cases hu : (unmarshal b).1 with
          | none => exact ⟨[], by simp [hu, store_item]⟩
          | some it =>
            by_cases ha : accepts t (store_item_args it) = true
            · exact ⟨[store_item_args it], by simp [hu, store_item, ha]⟩
            · exact ⟨[], by simp [hu, store_item, ha]⟩
      · exact ⟨[], by simp [hs]⟩
  · exact ⟨[], by simp [h]⟩

theorem work_loop_table_state (dbTable userAgent : String) (accepts : List Row → Row → Bool)
    (fetch : String → HttpResult) (unmarshal : String → Option Item × Option String)
    (endId : Int) :
    ∀ (fuel : Nat) (itemId : Int) (t : List Row),
      covers (work_loop (tableWorld dbTable userAgent accepts fetch unmarshal)
        fuel itemId endId t).state t := by
  intro fuel
  induction fuel with
  | zero =>
    intro itemId t
    exact fun id h => h
  | succ n ih =>
    intro itemId t
    rw [work_loop_succ]
    split
    · obtain ⟨extra, he⟩ := work_item_table_state dbTable userAgent accepts fetch unmarshal itemId t
      generalize work_item (tableWorld dbTable userAgent accepts fetch unmarshal) itemId t = x
        at he
      obtain ⟨tr, st1, res⟩ := x
      simp only at he
      subst he
      cases res with
      | error e => exact covers_append t extra
      | ok u => exact covers_trans (ih _ _) (covers_append t extra)
    · exact fun id h => h

theorem wrapInt_le_intMax (x : Int) : wrapInt x ≤ intMax := by
  unfold wrapInt intMax
  omega

theorem intMin_le_wrapInt (x : Int) : intMin ≤ wrapInt x := by
  unfold wrapInt intMin
  omega

theorem work_loop_never_done {σ : Type} (w : World σ) (endId : Int) (hmax : intMax ≤ endId) :
    ∀ (fuel : Nat) (itemId : Int) (st : σ), itemId ≤ endId →
      (work_loop w fuel itemId endId st).status ≠ .done := by
  intro fuel
  induction fuel with
  | zero =>
    intro itemId st _ h
    cases h
  | succ n ih =>
    intro itemId st hle
    rw [work_loop_succ]
    simp only [hle, if_true]
    generalize work_item w itemId st = x
    obtain ⟨tr, st1, res⟩ := x
    cases res with
    | error e =>
      intro h
      cases h
    | ok u => exact ih _ _ (le_trans (wrapInt_le_intMax _) hmax)

theorem work_item_table_nil (dbTable userAgent : String) (accepts : List Row → Row → Bool)
    (fetch : String → HttpResult) (unmarshal : String → Option Item × Option String)
    (id : Int) (t : List Row) (body : String) (h : countRows t id = 0)
    (hf : fetch (item_url id) = .response 200 (.ok body)) (hu : (unmarshal body).1 = none) :
    work_item (tableWorld dbTable userAgent accepts fetch unmarshal) id t =
      ([.new_item id (.ok true), .get_and_load (item_url id), .store_item none], t, .ok ()) := by
  unfold work_item
  rw [new_item_table]
  simp only [h, decide_True]
  simp [get_and_load, tableWorld, hf, hu, store_item]

theorem noInsert_append {a b : List Event} (ha : noInsert a) (hb : noInsert b) :
    noInsert (a ++ b) := by
  intro ev hev
  rcases List.mem_append.1 hev with h | h
  · exact ha ev h
  · exact hb ev h

theorem work_item_table_again (dbTable userAgent : String) (accepts : List Row → Row → Bool)
    (fetch : String → HttpResult) (unmarshal : String → Option Item × Option String)
    (id : Int) (t1 t2 : List Row)
    (hok : (work_item (tableWorld dbTable userAgent accepts fetch unmarshal) id t1).2.2 = .ok ())
    (hown : servesOwnId fetch unmarshal id)
    (hcov : covers t2
      (work_item (tableWorld dbTable userAgent accepts fetch unmarshal) id t1).2.1) :
    ∃ tr2, work_item (tableWorld dbTable userAgent accepts fetch unmarshal) id t2
        = (tr2, t2, .ok ()) ∧ noInsert tr2 := by
  by_cases h2 : countRows t2 id = 0
  · have h1 : countRows t1 id = 0 := by
      by_contra hne
      obtain ⟨extra, he⟩ :=
        work_item_table_state dbTable userAgent accepts fetch unmarshal id t1
      rw [he] at hcov
      exact hcov id (covers_append t1 extra id hne) h2
    obtain ⟨body, hf, hcase⟩ :=
      work_item_table_absent dbTable userAgent accepts fetch unmarshal id t1 h1 hok
    rcases hcase with ⟨hu, _⟩ | ⟨it, hu, hst⟩
    · refine ⟨_, work_item_table_nil dbTable userAgent accepts fetch unmarshal id t2 body h2 hf hu,
        ?_⟩
      intro ev hev
      simp only [List.mem_cons, List.mem_singleton, List.not_mem_nil, or_false] at hev
      rcases hev with rfl | rfl | rfl <;> simp
    · exfalso
      obtain ⟨hid, hne⟩ := hown body it hf hu
      rw [hst] at hcov
      have := countRows_stored t1 it (by rw [hid]; exact hne)
      rw [hid] at this
      exact hcov id this h2
  · refine ⟨_, work_item_table_present dbTable userAgent accepts fetch unmarshal id t2 h2, ?_⟩
    intro ev hev
    simp only [List.mem_singleton] at hev
    subst hev
    simp

theorem work_loop_table_again (dbTable userAgent : String) (accepts : List Row → Row → Bool)
    (fetch : String → HttpResult) (unmarshal : String → Option Item × Option String)
    (lo endId : Int) (hown : ∀ id, lo ≤ id → id ≤ endId → servesOwnId fetch unmarshal id) :
    ∀ (fuel : Nat) (itemId : Int) (t1 t2 : List Row), lo ≤ itemId →
      (work_loop (tableWorld dbTable userAgent accepts fetch unmarshal)
        fuel itemId endId t1).status = .done →
      covers t2 (work_loop (tableWorld dbTable userAgent accepts fetch unmarshal)
        fuel itemId endId t1).state →
      (work_loop (tableWorld dbTable userAgent accepts fetch unmarshal)
        fuel itemId endId t2).status = .done ∧
      (work_loop (tableWorld dbTable userAgent accepts fetch unmarshal)
        fuel itemId endId t2).state = t2 ∧
      noInsert (work_loop (tableWorld dbTable userAgent accepts fetch unmarshal)
        fuel itemId endId t2).trace := by
  intro fuel
  induction fuel with
  | zero =>
    intro itemId t1 t2 _ h
    cases h
  | succ n ih =>
    intro itemId t1 t2 hlo hdone hcov
    by_cases hle : itemId ≤ endId
    · have hlt : endId < intMax := by
        by_contra hge
        exact work_loop_never_done _ endId (not_lt.1 hge) _ _ _ hle hdone
      have hnext : lo ≤ wrapInt (itemId + 1) := by
        by_cases hm : intMin ≤ itemId
        · rw [wrapInt_of_range _ (by omega) (by omega)]
          omega
        · have := intMin_le_wrapInt (itemId + 1)
          omega
      rw [work_loop_succ] at hdone hcov ⊢
      simp only [hle, if_true] at hdone hcov ⊢
      have hagain := work_item_table_again dbTable userAgent accepts fetch unmarshal itemId t1 t2
      generalize work_item (tableWorld dbTable userAgent accepts fetch unmarshal) itemId t1 = x
        at hdone hcov hagain
      obtain ⟨tr, s1, res⟩ := x
      cases res with
      | error e => cases hdone
      | ok u =>
        simp only at hdone hcov hagain
        have hc1 : covers t2 s1 :=
          covers_trans hcov (work_loop_table_state dbTable userAgent accepts fetch unmarshal
            endId n _ s1)
        obtain ⟨tr2, heq, hno⟩ := hagain trivial (hown itemId hlo hle) hc1
        rw [heq]
        simp only
        obtain ⟨i1, i2, i3⟩ := ih (wrapInt (itemId + 1)) s1 t2 hnext hdone hcov
        exact ⟨i1, i2, noInsert_append hno i3⟩
    · rw [work_loop_succ]
      simp only [hle, if_false]
      refine ⟨trivial, trivial, ?_⟩
      intro ev hev
      cases hev

theorem run_batches_cons {σ : Type} (w : World σ) (fuel : Nat) (b : Int × Int)
    (bs : List (Int × Int)) (st : σ) :
    run_batches w fuel (b :: bs) st =
      match (work w fuel b.1 b.2 st).status with
      | .done =>
        ⟨(work w fuel b.1 b.2 st).trace ++ (run_batches w fuel bs (work w fuel b.1 b.2 st).state).trace,
          (run_batches w fuel bs (work w fuel b.1 b.2 st).state).state,
          (run_batches w fuel bs (work w fuel b.1 b.2 st).state).status⟩
      | _ => work w fuel b.1 b.2 st := rfl

theorem work_table (dbTable userAgent : String) (accepts : List Row → Row → Bool)
    (fetch : String → HttpResult) (unmarshal : String → Option Item × Option String)
    (fuel : Nat) (startId endId : Int) (t : List Row) :
    work (tableWorld dbTable userAgent accepts fetch unmarshal) fuel startId endId t =
      work_loop (tableWorld dbTable userAgent accepts fetch unmarshal) fuel startId endId t :=
  rfl

theorem run_batches_table_state (dbTable userAgent : String) (accepts : List Row → Row → Bool)
    (fetch : String → HttpResult) (unmarshal : String → Option Item × Option String)
    (fuel : Nat) :
    ∀ (bs : List (Int × Int)) (t : List Row),
      covers (run_batches (tableWorld dbTable userAgent accepts fetch unmarshal)
        fuel bs t).state t := by
  intro bs
  induction bs with
  | nil => exact fun t id h => h
  | cons b bs ih =>
    intro t
    rw [run_batches_cons]
    have hw := work_loop_table_state dbTable userAgent accepts fetch unmarshal b.2 fuel b.1 t
    rw [← work_table] at hw
    split
    · exact covers_trans (ih _) hw
    · exact hw

theorem run_batches_table_again (dbTable userAgent : String) (accepts : List Row → Row → Bool)
    (fetch : String → HttpResult) (unmarshal : String → Option Item × Option String)
    (fuel : Nat) :
    ∀ (bs : List (Int × Int)) (t1 t2 : List Row),
      (∀ p ∈ bs, ∀ id, inBatch p id → servesOwnId fetch unmarshal id) →
      (run_batches (tableWorld dbTable userAgent accepts fetch unmarshal)
        fuel bs t1).status = .done →
      covers t2 (run_batches (tableWorld dbTable userAgent accepts fetch unmarshal)
        fuel bs t1).state →
      (run_batches (tableWorld dbTable userAgent accepts fetch unmarshal)
        fuel bs t2).status = .done ∧
      (run_batches (tableWorld dbTable userAgent accepts fetch unmarshal)
        fuel bs t2).state = t2 ∧
      noInsert (run_batches (tableWorld dbTable userAgent accepts fetch unmarshal)
        fuel bs t2).trace := by
  intro bs
  induction bs with
  | nil =>
    intro t1 t2 _ _ _
    refine ⟨rfl, rfl, ?_⟩
    intro ev hev
    cases hev
  | cons b bs ih =>
    intro t1 t2 hown hdone hcov
    rw [run_batches_cons] at hdone hcov ⊢
    have hagain := work_loop_table_again dbTable userAgent accepts fetch unmarshal b.1 b.2
      (fun id h1 h2 => hown b (List.mem_cons_self _ _) id ⟨h1, h2⟩) fuel b.1 t1 t2 (le_refl _)
    rw [← work_table, ← work_table] at hagain
    cases hs : (work (tableWorld dbTable userAgent accepts fetch unmarshal) fuel b.1 b.2 t1).status
      with
    | done =>
      simp only [hs] at hdone hcov
      have hc1 : covers t2
          (work (tableWorld dbTable userAgent accepts fetch unmarshal) fuel b.1 b.2 t1).state :=
        covers_trans hcov
          (run_batches_table_state dbTable userAgent accepts fetch unmarshal fuel bs _)
      obtain ⟨w1, w2, w3⟩ := hagain hs hc1
      simp only [w1, w2]
      obtain ⟨i1, i2, i3⟩ := ih _ t2
        (fun p hp => hown p (List.mem_cons_of_mem _ hp)) hdone hcov
      exact ⟨i1, i2, noInsert_append w3 i3⟩
    | fatal msg =>
      simp only [hs] at hdone
      cases hdone
    | outOfFuel =>
      simp only [hs] at hdone
      cases hdone

/-- C5, for a transport that serves each ID of a batch its own item: when the first
sequential run over a table completes without error, the second run over the resulting
table completes too, makes no insert, and leaves the table as the first run left it. The
added condition is `servesOwnId`: a fetched non-nil item carries the requested, non-zero
`Id`. -/
theorem run_sequential_idempotent (dbTable userAgent : String)
    (accepts : List Row → Row → Bool) (fetch : String → HttpResult)
    (unmarshal : String → Option Item × Option String) (fuelB fuelW : Nat)
    (minId maxId batchSize : Int) (t0 : List Row)
    (hown : ∀ p ∈ (work_in_batches fuelB minId maxId batchSize).launched,
      ∀ id, inBatch p id → servesOwnId fetch unmarshal id)
    (hdone : (run_sequential (tableWorld dbTable userAgent accepts fetch unmarshal)
      fuelB fuelW minId maxId batchSize t0).status = .done) :
    (run_sequential (tableWorld dbTable userAgent accepts fetch unmarshal)
      fuelB fuelW minId maxId batchSize
      (run_sequential (tableWorld dbTable userAgent accepts fetch unmarshal)
        fuelB fuelW minId maxId batchSize t0).state).status = .done ∧
    (run_sequential (tableWorld dbTable userAgent accepts fetch unmarshal)
      fuelB fuelW minId maxId batchSize
      (run_sequential (tableWorld dbTable userAgent accepts fetch unmarshal)
        fuelB fuelW minId maxId batchSize t0).state).state =
      (run_sequential (tableWorld dbTable userAgent accepts fetch unmarshal)
        fuelB fuelW minId maxId batchSize t0).state ∧
    noInsert (run_sequential (tableWorld dbTable userAgent accepts fetch unmarshal)
      fuelB fuelW minId maxId batchSize
      (run_sequential (tableWorld dbTable userAgent accepts fetch unmarshal)
        fuelB fuelW minId maxId batchSize t0).state).trace := by
  unfold run_sequential at hdone ⊢
  by_cases hfin : (work_in_batches fuelB minId maxId batchSize).finished = true
  · simp only [hfin, if_true] at hdone ⊢
    exact run_batches_table_again dbTable userAgent accepts fetch unmarshal fuelW _ t0 _
      hown hdone (fun id h => h)
  · simp only [hfin] at hdone
    exfalso
    revert hdone
    simp only [Bool.false_eq_true, if_false]
    split <;> simp_all

/-- Witness of C5: over `1..2` from an empty primary-key table, the first run stores items
1 and 2; the second run checks both IDs and inserts nothing. -/
theorem run_sequential_idempotent_witness :
    (run_sequential twoItemsWorld 2 3 1 2 10 []).state.length = 2 ∧
    (run_sequential twoItemsWorld 2 3 1 2 10
        (run_sequential twoItemsWorld 2 3 1 2 10 []).state).trace
      = [.new_item 1 (.ok false), .new_item 2 (.ok false)] ∧
    ((run_sequential twoItemsWorld 2 3 1 2 10
        (run_sequential twoItemsWorld 2 3 1 2 10 []).state).status = .done ∧
    (run_sequential twoItemsWorld 2 3 1 2 10
        (run_sequential twoItemsWorld 2 3 1 2 10 []).state).state =
      (run_sequential twoItemsWorld 2 3 1 2 10 []).state ∧
    noInsert (run_sequential twoItemsWorld 2 3 1 2 10
        (run_sequential twoItemsWorld 2 3 1 2 10 []).state).trace) :=
  ⟨rfl, rfl, run_sequential_idempotent _ _ _ _ _ 2 3 1 2 10 []
    (by
      intro p hp id hin body item hf hu
      have hl : (work_in_batches 2 1 2 10).launched = [(1, 2)] := by decide
      rw [hl, List.mem_singleton] at hp
      subst hp
      obtain ⟨h1, h2⟩ := hin
      simp only at h1 h2
      have hcases : id = 1 ∨ id = 2 := by omega
      rcases hcases with rfl | rfl
      · have hb : body = "one" := by
          simp at hf
          exact hf.symm
        subst hb
        simp at hu
        subst hu
        exact ⟨rfl, by decide⟩
      · have hne : item_url 2 ≠ item_url 1 := by decide
        have hb : body = "two" := by
          simp [hne] at hf
          exact hf.symm
        subst hb
        simp at hu
        subst hu
        exact ⟨rfl, by decide⟩)
    rfl⟩

/-- Counterexample to C5 as stated. On a table without constraints, with a transport whose
200 body is the empty JSON object (it decodes to the zero `Item`), the first run over
`1..1` completes and stores a row with a NULL `id`; the second run finds ID 1 absent
again and inserts the same row again. On a table with `id` as primary key, with a transport
that answers ID 1 with the item 2, the first run completes and the second issues the
same insert, which the table rejects. -/
theorem run_sequential_inserts_again :
    (run_sequential emptyObjectWorld 2 2 1 1 1 []).status = .done ∧
    (run_sequential emptyObjectWorld 2 2 1 1 1 []).state = [store_item_args Item.zero] ∧
    (run_sequential emptyObjectWorld 2 2 1 1 1 (run_sequential emptyObjectWorld 2 2 1 1 1 []).state).trace
      = [.new_item 1 (.ok true), .get_and_load (item_url 1), .store_item (some Item.zero),
         .dbExec (insert_table_name "hacker_news_items" insertTemplate)
           (store_item_args Item.zero)] ∧
    (run_sequential emptyObjectWorld 2 2 1 1 1 (run_sequential emptyObjectWorld 2 2 1 1 1 []).state).state
      = [store_item_args Item.zero, store_item_args Item.zero] ∧
    (run_sequential (strayWorld primaryKey) 2 2 1 1 1 []).status = .done ∧
    (run_sequential (strayWorld primaryKey) 2 2 1 1 1
        (run_sequential (strayWorld primaryKey) 2 2 1 1 1 []).state).trace
      = [.new_item 1 (.ok true), .get_and_load (item_url 1),
         .store_item (some { Item.zero with Id := 2 }),
         .dbExec (insert_table_name "hacker_news_items" insertTemplate)
           (store_item_args { Item.zero with Id := 2 })] ∧
    (run_sequential (strayWorld primaryKey) 2 2 1 1 1
        (run_sequential (strayWorld primaryKey) 2 2 1 1 1 []).state).status
      = .fatal "constraint violation" := by
  refine ⟨rfl, rfl, rfl, rfl, rfl, rfl, rfl⟩

/-! ## The calls a run makes on the outside world -/

theorem new_item_result {σ : Type} (w : World σ) (itemId : Int) (st st1 : σ)
    (rows : List (Except String Int)) (count : Int)
    (hq : w.dbQuery st (insert_table_name w.dbTable countTemplate) itemId = (.ok rows, st1))
    (hs : new_item_scan rows 0 = .ok count) :
    new_item w itemId st = (.ok (decide (count = 0)), st1) := by
  unfold new_item
  rw [hq]
  simp only [hs]
  split <;> simp_all

theorem new_item_logged {σ : Type} (w : World σ) (id : Int) (st : σ) (l : List Op) :
    new_item (logged w) id (st, l) =
      ((new_item w id st).1, ((new_item w id st).2,
        l ++ [.dbQuery (insert_table_name w.dbTable countTemplate) id
          (w.dbQuery st (insert_table_name w.dbTable countTemplate) id).1])) := by
  simp only [new_item, logged]
  generalize w.dbQuery st (insert_table_name w.dbTable countTemplate) id = q
  obtain ⟨r, st1⟩ := q
  cases r with
  | error e => rfl
  | ok rows =>
    simp only
    cases new_item_scan rows 0 with
    | error e => rfl
    | ok count =>
      simp only
      split <;> rfl

theorem get_and_load_logged {σ : Type} (w : World σ) (url : String) (st : σ) (l : List Op) :
    get_and_load (logged w) url (st, l) =
      ((get_and_load w url st).1, ((get_and_load w url st).2,
        l ++ [.httpDo url w.userAgent (w.httpDo st url w.userAgent).1])) := by
  simp only [get_and_load, logged]
  generalize w.httpDo st url w.userAgent = q
  obtain ⟨r, st1⟩ := q
  cases r with
  | error e => rfl
  | response status body =>
    simp only
    split
    · cases body <;> rfl
    · rfl

theorem store_item_logged {σ : Type} (w : World σ) (it : Item) (st : σ) (l : List Op) :
    store_item (logged w) (some it) (st, l) =
      ((store_item w (some it) st).1, (store_item w (some it) st).2.1,
        ((store_item w (some it) st).2.2,
          l ++ [.dbExec (insert_table_name w.dbTable insertTemplate) (store_item_args it)
            (w.dbExec st (insert_table_name w.dbTable insertTemplate)
              (store_item_args it)).1])) := by
  simp only [store_item, logged]
  generalize w.dbExec st (insert_table_name w.dbTable insertTemplate) (store_item_args it) = q
  obtain ⟨r, st1⟩ := q
  cases r <;> rfl

theorem work_item_logged {σ : Type} (w : World σ) (id : Int) (st : σ) (l : List Op) :
    work_item (logged w) id (st, l) =
      ((work_item w id st).1, ((work_item w id st).2.1, l ++ itemOps w id st),
        (work_item w id st).2.2) := by
  unfold work_item itemOps
  rw [new_item_logged]
  generalize new_item w id st = n
  obtain ⟨r, st1⟩ := n
  cases r with
  | error e => rfl
  | ok b =>
    cases b with
    | false => rfl
    | true =>
      dsimp only
      rw [get_and_load_logged]
      generalize get_and_load w (item_url id) st1 = g
      obtain ⟨gr, st2⟩ := g
      cases gr with
      | error e => simp
      | ok pr =>
        obtain ⟨item, err⟩ := pr
        cases err with
        | some e => simp
        | none =>
          cases item with
          | none => simp [store_item]
          | some it =>
            dsimp only
            rw [store_item_logged]
            simp [logged]

theorem work_loop_logged {σ : Type} (w : World σ) (endId : Int) :
    ∀ (fuel : Nat) (itemId : Int) (st : σ) (l : List Op),
      work_loop (logged w) fuel itemId endId (st, l) =
        ⟨(work_loop w fuel itemId endId st).trace,
          ((work_loop w fuel itemId endId st).state, l ++ loopOps w fuel itemId endId st),
          (work_loop w fuel itemId endId st).status⟩ := by
  intro fuel
  induction fuel with
  | zero =>
    intro itemId st l
    simp [work_loop, loopOps]
  | succ n ih =>
    intro itemId st l
    rw [work_loop_succ, work_loop_succ, work_item_logged]
    unfold loopOps
    by_cases hle : itemId ≤ endId
    · simp only [hle, if_true]
      generalize work_item w itemId st = x
      obtain ⟨tr, st1, res⟩ := x
      cases res with
      | error e => rfl
      | ok u =>
        simp only [ih, List.append_assoc]
    · simp [hle]

theorem work_logged {σ : Type} (w : World σ) (fuel : Nat) (startId endId : Int) (st : σ) :
    (work (logged w) fuel startId endId (st, [])).status = (work w fuel startId endId st).status ∧
    (work (logged w) fuel startId endId (st, [])).state.1 = (work w fuel startId endId st).state ∧
    (work (logged w) fuel startId endId (st, [])).state.2 =
      match w.sqlOpen st with
      | some _ => []
      | none => loopOps w fuel startId endId st := by
  unfold work
  simp only [logged]
  cases w.sqlOpen st with
  | some e => exact ⟨rfl, rfl, rfl⟩
  | none =>
    have h := work_loop_logged w endId fuel startId st []
    simp only [logged, List.nil_append] at h
    simp only [h]
    exact ⟨trivial, trivial, trivial⟩

theorem new_item_ok_inv {σ : Type} (w : World σ) (id : Int) (st st1 : σ) (b : Bool)
    (h : new_item w id st = (.ok b, st1)) :
    ∃ rows count, w.dbQuery st (insert_table_name w.dbTable countTemplate) id = (.ok rows, st1) ∧
      new_item_scan rows 0 = .ok count ∧ b = decide (count = 0) := by
  unfold new_item at h
  generalize w.dbQuery st (insert_table_name w.dbTable countTemplate) id = q at h
  obtain ⟨r, s1⟩ := q
  cases r with
  | error e => simp at h
  | ok rows =>
    simp only at h
    cases hs : new_item_scan rows 0 with
    | error e => simp [hs] at h
    | ok count =>
      simp only [hs] at h
      by_cases hc : count = 0
      · simp only [hc, if_true, Prod.mk.injEq, Except.ok.injEq] at h
        exact ⟨rows, count, by rw [h.2], hs, by simp [hc, h.1.symm]⟩
      · simp only [hc, if_false, Prod.mk.injEq, Except.ok.injEq] at h
        exact ⟨rows, count, by rw [h.2], hs, by simp [hc, h.1.symm]⟩

theorem get_and_load_ok_inv {σ : Type} (w : World σ) (url : String) (st st2 : σ)
    (item : Option Item) (h : get_and_load w url st = (.ok (item, none), st2)) :
    ∃ body, w.httpDo st url w.userAgent = (.response 200 (.ok body), st2) ∧
      item = (w.jsonUnmarshal body).1 := by
  unfold get_and_load at h
  generalize w.httpDo st url w.userAgent = q at h
  obtain ⟨r, s1⟩ := q
  cases r with
  | error e => simp at h
  | response status body =>
    simp only at h
    by_cases hs : status = 200
    · subst hs
      simp only [if_true] at h
      cases body with
      | error e => simp at h
      | ok b =>
        simp only [Prod.mk.injEq, Except.ok.injEq] at h
        exact ⟨b, by rw [h.2], h.1.1.symm⟩
    · simp [hs] at h

theorem itemOps_cases {σ : Type} (w : World σ) (id : Int) (st : σ) :
    ∃ tail, itemOps w id st =
        .dbQuery (insert_table_name w.dbTable countTemplate) id
          (w.dbQuery st (insert_table_name w.dbTable countTemplate) id).1 :: tail ∧
      (∀ op ∈ tail, ∀ s i r, op ≠ Op.dbQuery s i r) ∧
      ∀ rows count,
        (w.dbQuery st (insert_table_name w.dbTable countTemplate) id).1 = .ok rows →
        new_item_scan rows 0 = .ok count →
        (count ≠ 0 → tail = []) ∧
        (count = 0 → ∃ r tail2, tail = .httpDo (item_url id) w.userAgent r :: tail2) := by
  unfold itemOps
  refine ⟨_, rfl, ?_, ?_⟩
  · intro op hop s i r
    split at hop
    · simp only [List.mem_cons] at hop
      rcases hop with rfl | hop
      · simp
      · split at hop
        · simp only [List.mem_singleton] at hop
          subst hop
          simp
        · cases hop
    · cases hop
  · intro rows count hq hs
    have hn := new_item_result w id st _ rows count (Prod.ext hq rfl) hs
    rw [hn]
    constructor
    · intro hc
      simp [hc]
    · intro hc
      simp only [hc, decide_True]
      exact ⟨_, _, rfl⟩

theorem store_item_ok_inv {σ : Type} (w : World σ) (it : Item) (st : σ)
    (h : (store_item w (some it) st).2.1 = .ok ()) :
    (w.dbExec st (insert_table_name w.dbTable insertTemplate) (store_item_args it)).1 = none := by
  unfold store_item at h
  simp only at h
  generalize w.dbExec st (insert_table_name w.dbTable insertTemplate) (store_item_args it) = q
    at h ⊢
  obtain ⟨r, s1⟩ := q
  cases r with
  | none => rfl
  | some e => simp at h

theorem itemOps_ok {σ : Type} (w : World σ) (id : Int) (st : σ)
    (h : (work_item w id st).2.2 = .ok ()) : isBlockOf w id (itemOps w id st) := by
  unfold work_item at h
  unfold itemOps
  cases hn : new_item w id st with
  | mk r st1 =>
    rw [hn] at h
    cases r with
    | error e => simp at h
    | ok b =>
      obtain ⟨rows, count, hq, hs, hb⟩ := new_item_ok_inv w id st st1 b hn
      cases b with
      | false =>
        left
        refine ⟨rows, count, hs, by simpa using hb, ?_⟩
        simp [hq]
      | true =>
        right
        have hc : count = 0 := by simpa using hb
        subst hc
        dsimp only at h ⊢
        cases hg : get_and_load w (item_url id) st1 with
        | mk gr st2 =>
          rw [hg] at h
          cases gr with
          | error e => simp at h
          | ok pr =>
            obtain ⟨item, err⟩ := pr
            cases err with
            | some e => simp at h
            | none =>
              obtain ⟨body, hh, hitem⟩ := get_and_load_ok_inv w (item_url id) st1 st2 item hg
              refine ⟨rows, body, hs, ?_⟩
              rw [← hitem]
              cases item with
              | none => simp [hq, hh, storeOps]
              | some it =>
                dsimp only at h
                have he := store_item_ok_inv w it st2 h
                simp [hq, hh, storeOps, he]

theorem loopOps_succ {σ : Type} (w : World σ) (fuel : Nat) (itemId endId : Int) (st : σ) :
    loopOps w (fuel + 1) itemId endId st =
      if itemId ≤ endId then
        match work_item w itemId st with
        | (_, _, .error _) => itemOps w itemId st
        | (_, st1, .ok ()) =>
          itemOps w itemId st ++ loopOps w fuel (wrapInt (itemId + 1)) endId st1
      else [] := rfl

theorem loopOps_split {σ : Type} (w : World σ) (fuel : Nat) (itemId endId : Int) (st : σ) :
    loopOps w (fuel + 1) itemId endId st = [] ∨
    ∃ rest, loopOps w (fuel + 1) itemId endId st = itemOps w itemId st ++ rest ∧
      (rest = [] ∨ ∃ st1, rest = loopOps w fuel (wrapInt (itemId + 1)) endId st1) := by
  rw [loopOps_succ]
  split
  · right
    generalize work_item w itemId st = x
    obtain ⟨tr, st1, res⟩ := x
    cases res with
    | error e => exact ⟨[], by simp, Or.inl rfl⟩
    | ok u => exact ⟨_, rfl, Or.inr ⟨st1, rfl⟩⟩
  · exact Or.inl rfl

theorem loopOps_head {σ : Type} (w : World σ) (fuel : Nat) (itemId endId : Int) (st : σ) :
    loopOps w fuel itemId endId st = [] ∨
    ∃ r rest, loopOps w fuel itemId endId st =
      .dbQuery (insert_table_name w.dbTable countTemplate) itemId r :: rest := by
  cases fuel with
  | zero => exact Or.inl rfl
  | succ n =>
    rcases loopOps_split w n itemId endId st with h | ⟨rest, h, _⟩
    · exact Or.inl h
    · right
      obtain ⟨tail, ht, _⟩ := itemOps_cases w itemId st
      rw [h, ht]
      exact ⟨_, _, rfl⟩

theorem loopOps_after_check {σ : Type} (w : World σ) (endId : Int) :
    ∀ (fuel : Nat) (itemId : Int) (st : σ) (pre post : List Op) (stmt : String) (id : Int)
      (rows : List (Except String Int)) (count : Int),
      loopOps w fuel itemId endId st = pre ++ .dbQuery stmt id (.ok rows) :: post →
      new_item_scan rows 0 = .ok count →
      stmt = insert_table_name w.dbTable countTemplate ∧
      (count ≠ 0 → post = [] ∨ ∃ stmt2 r post2,
        post = .dbQuery stmt2 (wrapInt (id + 1)) r :: post2) ∧
      (count = 0 → ∃ r post2, post = .httpDo (item_url id) w.userAgent r :: post2) := by
  intro fuel
  induction fuel with
  | zero =>
    intro itemId st pre post stmt id rows count h
    simp [loopOps] at h
  | succ n ih =>
    intro itemId st pre post stmt id rows count h hs
    rcases loopOps_split w n itemId endId st with h0 | ⟨rest, h1, h5⟩
    · rw [h0] at h
      simp at h
    · obtain ⟨tail, ht, hnoq, hshape⟩ := itemOps_cases w itemId st
      rw [h1, ht] at h
      cases pre with
      | nil =>
        simp only [List.nil_append, List.cons_append, List.cons.injEq, Op.dbQuery.injEq] at h
        obtain ⟨⟨hstmt, hid, hres⟩, hpost⟩ := h
        subst hid
        obtain ⟨hA, hB⟩ := hshape rows count hres hs
        refine ⟨hstmt.symm, ?_, ?_⟩
        · intro hc
          rw [hA hc, List.nil_append] at hpost
          subst hpost
          rcases h5 with rfl | ⟨st1, rfl⟩
          · exact Or.inl rfl
          · rcases loopOps_head w n (wrapInt (itemId + 1)) endId st1 with h6 | ⟨r, t, h6⟩
            · exact Or.inl h6
            · exact Or.inr ⟨_, r, t, h6⟩
        · intro hc
          obtain ⟨r, tail2, rfl⟩ := hB hc
          subst hpost
          exact ⟨r, _, rfl⟩
      | cons p pre =>
        simp only [List.cons_append, List.cons.injEq] at h
        obtain ⟨_, h⟩ := h
        rcases List.append_eq_append_iff.1 h with ⟨a, ha, hb⟩ | ⟨c, hc, hd⟩
        · rcases h5 with rfl | ⟨st1, rfl⟩
          · simp at hb
          · exact ih _ _ _ _ _ _ _ _ hb hs
        · cases c with
          | nil =>
            simp only [List.nil_append] at hd
            rcases h5 with rfl | ⟨st1, rfl⟩
            · simp at hd
            · exact ih _ _ [] _ _ _ _ _ (by simpa using hd.symm) hs
          | cons c cs =>
            simp only [List.cons_append, List.cons.injEq] at hd
            exfalso
            have hmem : Op.dbQuery stmt id (.ok rows) ∈ tail := by
              rw [hc]; simp [hd.1]
            exact hnoq _ hmem _ _ _ rfl

/-- C3: in the log of the calls that `work` makes on the outside world over any range, an
existence query for an ID that the database answers with a non-zero count is followed by no
fetch and no insert for that ID: the next call, if the run makes one, is the existence query
of the next ID `itemId++`. An existence query answered with the count zero is followed by
the HTTP request for that ID's URL. The log is written by the world, not by `work`. -/
theorem work_skips_present {σ : Type} (w : World σ) (fuel : Nat) (startId endId : Int)
    (st : σ) (pre post : List Op) (stmt : String) (id : Int)
    (rows : List (Except String Int)) (count : Int)
    (h : (work (logged w) fuel startId endId (st, [])).state.2
      = pre ++ .dbQuery stmt id (.ok rows) :: post)
    (hs : new_item_scan rows 0 = .ok count) :
    stmt = insert_table_name w.dbTable countTemplate ∧
    (count ≠ 0 → post = [] ∨ ∃ stmt2 r post2,
      post = .dbQuery stmt2 (wrapInt (id + 1)) r :: post2) ∧
    (count = 0 → ∃ r post2, post = .httpDo (item_url id) w.userAgent r :: post2) := by
  have hl := (work_logged w fuel startId endId st).2.2
  rw [hl] at h
  cases ho : w.sqlOpen st with
  | some e =>
    rw [ho] at h
    simp at h
  | none =>
    rw [ho] at h
    exact loopOps_after_check w endId fuel startId st pre post stmt id rows count h hs

/-- Witness of C3: over the range `[1, 2]`, with ID 1 stored and ID 2 not, the calls are
the query of 1 (count 1), then at once the query of 2 (count 0), then the fetch of 2. -/
theorem work_skips_present_witness :
    (work (logged nullWorld) 3 1 2 (oneRowTable, [])).state.2
      = [] ++ .dbQuery (insert_table_name "hacker_news_items" countTemplate) 1 (.ok [.ok 1]) ::
          [.dbQuery (insert_table_name "hacker_news_items" countTemplate) 2 (.ok [.ok 0]),
           .httpDo (item_url 2) "research" (.response 200 (.ok "null"))] ∧
    new_item_scan [.ok 1] 0 = .ok 1 ∧
    (insert_table_name "hacker_news_items" countTemplate
        = insert_table_name nullWorld.dbTable countTemplate ∧
    ((1 : Int) ≠ 0 →
      [Op.dbQuery (insert_table_name "hacker_news_items" countTemplate) 2 (.ok [.ok 0]),
        .httpDo (item_url 2) "research" (.response 200 (.ok "null"))] = [] ∨
      ∃ stmt2 r post2,
        [Op.dbQuery (insert_table_name "hacker_news_items" countTemplate) 2 (.ok [.ok 0]),
          .httpDo (item_url 2) "research" (.response 200 (.ok "null"))]
        = .dbQuery stmt2 (wrapInt (1 + 1)) r :: post2) ∧
    ((1 : Int) = 0 → ∃ r post2,
      [Op.dbQuery (insert_table_name "hacker_news_items" countTemplate) 2 (.ok [.ok 0]),
        .httpDo (item_url 2) "research" (.response 200 (.ok "null"))]
        = .httpDo (item_url 1) nullWorld.userAgent r :: post2)) :=
  ⟨rfl, rfl, work_skips_present nullWorld 3 1 2 oneRowTable [] _ _ 1 [.ok 1] 1 rfl rfl⟩

theorem checkedIds_block {σ : Type} (w : World σ) (id : Int) (blk : List Op)
    (h : isBlockOf w id blk) : checkedIds blk = [id] := by
  rcases h with ⟨rows, count, _, _, rfl⟩ | ⟨rows, body, _, rfl⟩
  · rfl
  · cases hi : (w.jsonUnmarshal body).1 <;> simp [checkedIds, storeOps]

theorem checkedIds_flatten {σ : Type} (w : World σ) (ids : List Int)
    (blocks : List (List Op)) (h : List.Forall₂ (isBlockOf w) ids blocks) :
    checkedIds blocks.flatten = ids := by
  induction h with
  | nil => rfl
  | cons hb _ ih =>
    rw [List.flatten_cons]
    unfold checkedIds at ih ⊢
    rw [List.filterMap_append, ih]
    have := checkedIds_block w _ _ hb
    unfold checkedIds at this
    rw [this]
    rfl

theorem loopOps_blocks {σ : Type} (w : World σ) (endId : Int) (hmax : endId < intMax) :
    ∀ (fuel : Nat) (itemId : Int) (st : σ), intMin ≤ itemId →
      (endId + 1 - itemId).toNat < fuel →
      (∀ msg, (work_loop w fuel itemId endId st).status ≠ .fatal msg) →
      (work_loop w fuel itemId endId st).status = .done ∧
      ∃ blocks, loopOps w fuel itemId endId st = blocks.flatten ∧
        List.Forall₂ (isBlockOf w) (idRange itemId (endId + 1 - itemId).toNat) blocks := by
  intro fuel
  induction fuel with
  | zero => intro itemId st _ h; omega
  | succ n ih =>
    intro itemId st hmin hfuel hok
    rw [work_loop_succ] at hok ⊢
    rw [loopOps_succ]
    by_cases hle : itemId ≤ endId
    · simp only [hle, if_true] at hok ⊢
      have hw : wrapInt (itemId + 1) = itemId + 1 := by
        unfold intMax at hmax
        exact wrapInt_of_range _ (by omega) (by unfold intMax; omega)
      have hn : (endId + 1 - itemId).toNat = (endId + 1 - (itemId + 1)).toNat + 1 := by omega
      have hblk := itemOps_ok w itemId st
      generalize itemOps w itemId st = ops at hblk ⊢
      generalize work_item w itemId st = x at hok hblk ⊢
      obtain ⟨tr, st1, res⟩ := x
      cases res with
      | error e => exact absurd rfl (hok e)
      | ok u =>
        simp only [hw] at hok ⊢
        obtain ⟨h1, blocks, h2, h3⟩ := ih (itemId + 1) st1 (by omega) (by omega) hok
        refine ⟨h1, ops :: blocks, ?_, ?_⟩
        · rw [List.flatten_cons, h2]
        · rw [hn]
          exact List.Forall₂.cons (hblk rfl) h3
    · simp only [hle, if_false]
      have hn : (endId + 1 - itemId).toNat = 0 := by omega
      rw [hn]
      exact ⟨trivial, [], rfl, List.Forall₂.nil⟩

/-- C4, for ranges that end below the largest Go `int`: when `endId < intMax`, no step of
`work` over `[startId, endId]` is fatal and the fuel exceeds the number of IDs, the loop
ends and the log of the calls made on the outside world is the concatenation, for ID =
`startId, startId + 1, ..., endId`, of that ID's existence query followed, only when the
count it returns is zero, by the fetch of its URL and then the store of the fetched item;
the IDs queried are exactly `startId, ..., endId`, once each, in increasing order. The log
is written by the world, not by `work`. -/
theorem work_trace_ordered {σ : Type} (w : World σ) (fuel : Nat) (startId endId : Int)
    (st : σ) (hmin : intMin ≤ startId) (hmax : endId < intMax)
    (hfuel : (endId + 1 - startId).toNat < fuel)
    (hok : ∀ msg, (work (logged w) fuel startId endId (st, [])).status ≠ .fatal msg) :
    (work (logged w) fuel startId endId (st, [])).status = .done ∧
    (∃ blocks, (work (logged w) fuel startId endId (st, [])).state.2 = blocks.flatten ∧
      List.Forall₂ (isBlockOf w) (idRange startId (endId + 1 - startId).toNat) blocks) ∧
    checkedIds (work (logged w) fuel startId endId (st, [])).state.2
      = idRange startId (endId + 1 - startId).toNat := by
  obtain ⟨hs, _, hl⟩ := work_logged w fuel startId endId st
  rw [hs] at hok ⊢
  rw [hl]
  unfold work at hok ⊢
  cases ho : w.sqlOpen st with
  | some e =>
    simp only [ho] at hok
    exact absurd rfl (hok e)
  | none =>
    simp only [ho] at hok ⊢
    obtain ⟨h1, blocks, h2, h3⟩ := loopOps_blocks w endId hmax fuel startId st hmin hfuel hok
    refine ⟨h1, ⟨blocks, h2, h3⟩, ?_⟩
    rw [h2]
    exact checkedIds_flatten w _ _ h3

/-- Witness of C4: over `[1, 2]`, with ID 1 stored and ID 2 not, the calls are the query
of 1 followed by the query and the fetch of 2, whose body `null` gives nothing to insert. -/
theorem work_trace_ordered_witness :
    (work (logged nullWorld) 3 1 2 (oneRowTable, [])).state.2
      = [.dbQuery (insert_table_name "hacker_news_items" countTemplate) 1 (.ok [.ok 1]),
         .dbQuery (insert_table_name "hacker_news_items" countTemplate) 2 (.ok [.ok 0]),
         .httpDo (item_url 2) "research" (.response 200 (.ok "null"))] ∧
    ((work (logged nullWorld) 3 1 2 (oneRowTable, [])).status = .done ∧
    (∃ blocks, (work (logged nullWorld) 3 1 2 (oneRowTable, [])).state.2 = blocks.flatten ∧
      List.Forall₂ (isBlockOf nullWorld) (idRange 1 ((2 : Int) + 1 - 1).toNat) blocks) ∧
    checkedIds (work (logged nullWorld) 3 1 2 (oneRowTable, [])).state.2
      = idRange 1 ((2 : Int) + 1 - 1).toNat) :=
  ⟨rfl, work_trace_ordered nullWorld 3 1 2 oneRowTable (by decide) (by decide) (by decide)
    (by intro msg h; cases h)⟩

/-- Counterexample to C4 as stated: the flags `min-id = intMax - 1`, `max-id = intMax`,
`batch-size = 1` launch `work` over `[intMax - 1, intMax]`. With nothing stored and no
failing step, `itemId++` wraps round: after the query and fetch of `intMax - 1` and of
`intMax` the worker queries and fetches `intMin`, a smaller ID outside the range, and the
loop has not ended. -/
theorem work_wraps_past_intMax :
    (work_in_batches 1 (intMax - 1) intMax 1).launched = [(intMax - 1, intMax)] ∧
    (work (logged nullWorld) 3 (intMax - 1) intMax ([], [])).state.2 =
      [.dbQuery (insert_table_name "hacker_news_items" countTemplate) (intMax - 1) (.ok [.ok 0]),
       .httpDo (item_url (intMax - 1)) "research" (.response 200 (.ok "null")),
       .dbQuery (insert_table_name "hacker_news_items" countTemplate) intMax (.ok [.ok 0]),
       .httpDo (item_url intMax) "research" (.response 200 (.ok "null")),
       .dbQuery (insert_table_name "hacker_news_items" countTemplate) intMin (.ok [.ok 0]),
       .httpDo (item_url intMin) "research" (.response 200 (.ok "null"))] ∧
    (work (logged nullWorld) 3 (intMax - 1) intMax ([], [])).status = .outOfFuel ∧
    checkedIds (work (logged nullWorld) 3 (intMax - 1) intMax ([], [])).state.2
      = [intMax - 1, intMax, intMin] ∧
    intMin < intMax - 1 := by
  refine ⟨by decide, rfl, rfl, rfl, by decide⟩

/-- C10: for a non-nil `Item`, `store_item` makes exactly one `db.Exec` call on the world,
from which it takes its result and the next state, and the log of the world grows by that
one call; its statement names the columns id, type, by, url, title, text, score, time,
parent, deleted, dead, descendants, ranking, kids, parts and its fifteen arguments are, in
that order, the coercions of the `Item` fields of the same names, `Deleted` and `Dead` as
plain booleans. For a nil `Item` it makes no call and changes nothing. -/
theorem store_item_insert {σ : Type} (w : World σ) (item : Item) (st : σ) (l : List Op) :
    insert_table_name w.dbTable insertTemplate =
      "INSERT INTO " ++ w.dbTable ++ " (id, type, by, url, title, text, score, time, parent, deleted, dead, descendants, ranking, kids, parts) VALUES ($1, $2, $3, $4, $5, $6, $7, $8, $9, $10, $11, $12, $13, $14, $15)" ∧
    store_item_args item =
      [ .nullInt64 (toNullInt64 item.Id),
        .nullString (toNullString item.Type_),
        .nullString (toNullString item.By),
        .nullString (toNullString item.Url),
        .nullString (toNullString item.Title),
        .nullString (toNullString item.Text),
        .nullInt64 (toNullInt64 item.Score),
        .nullTime (toNullTime item.Time),
        .nullInt64 (toNullInt64 item.Parent),
        .bool item.Deleted,
        .bool item.Dead,
        .nullInt64 (toNullInt64 item.Descendants),
        .nullInt64 (toNullInt64 item.Ranking),
        .nullString (toNullKids item.Kids),
        .nullString (toNullString item.Parts) ] ∧
    (store_item_args item).length = 15 ∧
    store_item w (some item) st =
      ([(insert_table_name w.dbTable insertTemplate, store_item_args item)],
        (match (w.dbExec st (insert_table_name w.dbTable insertTemplate)
            (store_item_args item)).1 with
          | some e => .error e
          | none => .ok ()),
        (w.dbExec st (insert_table_name w.dbTable insertTemplate) (store_item_args item)).2) ∧
    (store_item (logged w) (some item) (st, l)).2.2 =
      ((w.dbExec st (insert_table_name w.dbTable insertTemplate) (store_item_args item)).2,
        l ++ [.dbExec (insert_table_name w.dbTable insertTemplate) (store_item_args item)
          (w.dbExec st (insert_table_name w.dbTable insertTemplate)
            (store_item_args item)).1]) ∧
    store_item w none st = ([], .ok (), st) ∧
    store_item (logged w) none (st, l) = ([], .ok (), (st, l)) := by
  have hreal : store_item w (some item) st =
      ([(insert_table_name w.dbTable insertTemplate, store_item_args item)],
        (match (w.dbExec st (insert_table_name w.dbTable insertTemplate)
            (store_item_args item)).1 with
          | some e => .error e
          | none => .ok ()),
        (w.dbExec st (insert_table_name w.dbTable insertTemplate) (store_item_args item)).2) := by
    unfold store_item
    simp only
    generalize w.dbExec st (insert_table_name w.dbTable insertTemplate) (store_item_args item) = q
    obtain ⟨r, s1⟩ := q
    cases r <;> rfl
  refine ⟨insert_stmt_text w.dbTable, rfl, rfl, hreal, ?_, rfl, rfl⟩
  rw [store_item_logged, hreal]

end HackerNews
